import Mathlib

/-!
Shallow embedding of the repository-aggregation service
(`FlorianRuen/sclng-backend-test-v1`): the GitHub search/enrichment
orchestrator (`service/github_service.go`), the query builder and data
model (`model/`), and the HTTP boundary (`controller/api_controller.go`).

Concurrency is embedded by making the nondeterministic ingredients
explicit parameters: the outcome of each outbound call is an oracle
argument, and the order in which worker results arrive on the collection
channel is a universally quantified list (constrained to be a permutation
of the results actually produced).  Go `nil` maps / pointers are `Option`;
a Go runtime panic is modelled as the `none` case of an outer `Option`.
-/

set_option maxHeartbeats 1000000

namespace Sclng

/-! ## Rate limiter

Modelled from the spec: the `golang.org/x/time/rate.Limiter` used by the
service is an external dependency whose source is not part of this
repository.  Section 4.1 of the spec gives its contract: `Allow()`
consumes 1 token if available else refuses; `AllowN(n)` atomically
consumes `n` tokens only if `n ≤ burst` and `n` tokens are simultaneously
available, else refuses and consumes nothing; `Burst()` is the capacity.
Tokens are rational (the bucket refills continuously), calls are atomic,
so a set of concurrent callers is embedded as an arbitrary sequence of
atomic calls. -/
structure Limiter where
  burst : Nat
  tokens : Rat
deriving Repr

/-- AllowN consumes `n` tokens iff `n ≤ burst` and `n` tokens are
currently available; on refusal the state is unchanged. -/
def Limiter.allowN (lim : Limiter) (n : Nat) : Limiter × Bool :=
  if n ≤ lim.burst ∧ (n : Rat) ≤ lim.tokens then
    ({ lim with tokens := lim.tokens - (n : Rat) }, true)
  else
    (lim, false)

/-- Allow is AllowN with one token. -/
def Limiter.allow (lim : Limiter) : Limiter × Bool :=
  lim.allowN 1

/-- Runs a sequence of `AllowN` requests (an `Allow` is the request `1`),
returning the final limiter state and the total number of tokens
admitted.  This is the embedding of any interleaving of concurrent
atomic `Allow`/`AllowN` callers. -/
def Limiter.runAllowOps (lim : Limiter) : List Nat → Limiter × Nat
  | [] => (lim, 0)
  | n :: rest =>
    let step := lim.allowN n
    let tail := step.1.runAllowOps rest
    (tail.1, (if step.2 then n else 0) + tail.2)

/-! ## Data model (`model/github.go`, `model/search.go`) -/

/-- Language histogram: Go `map[string]int` (language name → byte count). -/
abbrev Histogram := List (String × Int)

/-- Embedding of `model.GithubRepository`.  Go struct tags: `ID` and
`MostUsedLanguage` are `json:"-"`; `License` is a plain `string` with tag
`json:"license"` (its comment: "license can be nil, will contains empty
string"); `Languages` is a Go map whose zero value is the `nil` map,
modelled as `none`. -/
structure GithubRepository where
  id : Int
  fullName : String
  owner : String
  repository : String
  license : String
  mostUsedLanguage : Option String
  languages : Option Histogram
deriving Repr, DecidableEq

/-- Embedding of `model.GithubRepositoryLanguages`, the value sent on the
collection channel by one worker. -/
structure GithubRepositoryLanguages where
  repositoryID : Int
  languages : Histogram
deriving Repr, DecidableEq

/-- Keys emitted by `encoding/json` when marshalling a
`model.GithubRepository`: `ID` and `MostUsedLanguage` carry `json:"-"`
and are skipped; none of the remaining tags carries `omitempty`, so the
key set does not depend on the record's values — in particular `license`
is always emitted. -/
def marshalKeys (_r : GithubRepository) : List String :=
  ["fullName", "owner", "repository", "license", "languages"]

/-- Embedding of `model.SearchQuery` (`model/search.go`). -/
structure SearchQuery where
  owner : String
  license : String
  language : String
deriving Repr, DecidableEq

/-- Character class trimmed by Go's `strings.TrimSpace` (the ASCII
whitespace cases; the inputs built by `ToGithubQuery` only ever add
`' '`). -/
def isGoSpace (c : Char) : Bool :=
  c == ' ' || c == '\t' || c == '\n' || c == '\x0b' || c == '\x0c' || c == '\r'

/-- Embedding of Go `strings.TrimSpace`: drop leading and trailing
whitespace. -/
def goTrimSpace (s : String) : String :=
  ⟨((s.data.dropWhile isGoSpace).reverse.dropWhile isGoSpace).reverse⟩

/-- Embedding of `SearchQuery.ToGithubQuery`: concatenate `"is:public "`
(when asked to filter public repositories) and one `filter:value `
fragment per non-empty field, then `strings.TrimSpace` the result. -/
def SearchQuery.toGithubQuery (params : SearchQuery) (filterPublicRepositories : Bool) : String :=
  goTrimSpace
    ((if filterPublicRepositories then "is:public " else "")
      ++ (if params.owner ≠ "" then "owner:" ++ params.owner ++ " " else "")
      ++ (if params.license ≠ "" then "license:" ++ params.license ++ " " else "")
      ++ (if params.language ≠ "" then "language:" ++ params.language ++ " " else ""))

/-- Modelled from the spec: the list of filter terms the query string is
made of — `is:public` always, and each of the `owner:`, `license:`,
`language:` terms exactly when the corresponding field is non-empty.
This is the spec-side description that `toGithubQuery` is compared
against. -/
def specQueryTerms (params : SearchQuery) : List String :=
  ["is:public"]
    ++ (if params.owner ≠ "" then ["owner:" ++ params.owner] else [])
    ++ (if params.license ≠ "" then ["license:" ++ params.license] else [])
    ++ (if params.language ≠ "" then ["language:" ++ params.language] else [])

/-- True when the string's last character is whitespace. -/
def hasTrailingSpace (s : String) : Bool :=
  match s.data.getLast? with
  | some c => isGoSpace c
  | none => false

/-! ## Raw GitHub search entries (`go-github`'s `*github.Repository`)

Every field of the raw entry is a pointer in Go, hence an `Option`; the
entry itself sits behind a pointer in `repos.Repositories`, hence the
outer `Option` at the use sites. -/

/-- Raw owner object: `*github.User` with its `Login *string`. -/
structure RawOwner where
  login : Option String
deriving Repr, DecidableEq

/-- Raw license object: `*github.License` with its `Key *string`. -/
structure RawLicense where
  key : Option String
deriving Repr, DecidableEq

/-- Embedding of `(*github.License).GetKey`: the key if present, the
empty string otherwise. -/
def RawLicense.getKey (l : RawLicense) : String :=
  l.key.getD ""

/-- Raw repository entry as returned by the search call. -/
structure RawRepository where
  id : Option Int
  fullName : Option String
  owner : Option RawOwner
  name : Option String
  language : Option String
  license : Option RawLicense
deriving Repr, DecidableEq

/-! ## Error taxonomy (`fmt.Errorf` strings of the service layer) -/

/-- The error values `FetchLastHundredRepositories` and
`HandleRequestErrors` produce. -/
inductive ServiceError where
  | rateLimitReached
  | rateLimiterError
  | invalidDataFound
  | fetchError
deriving Repr, DecidableEq

/-- Embedding of `err.Error()` for the service's errors. -/
def ServiceError.message : ServiceError → String
  | .rateLimitReached => "RATE_LIMIT_REACHED"
  | .rateLimiterError => "RATE_LIMITER_ERROR"
  | .invalidDataFound => "INVALID_DATA_FOUND"
  | .fetchError => "FETCH_ERROR"

/-- Classification of the raw Go error an outbound call can return:
either `*github.RateLimitError` or anything else. -/
inductive GoError where
  | rateLimitError
  | otherError
deriving Repr, DecidableEq

/-! ## Search-phase validation and mapping
(`FetchLastHundredRepositories`, loop over `repos.Repositories`) -/

/-- One iteration of the validation/mapping loop.  The Go guard is
`r == nil || r.FullName == nil || r.Owner == nil || r.Owner.Login == nil
|| r.Name == nil`; inside the guard's body the log field accesses `r.ID`,
which dereferences a `nil` entry pointer, and the record literal
dereferences `*r.ID` without any nil check — both are runtime panics,
modelled as `none`.  `some (.error ())` is the `INVALID_DATA_FOUND`
early return, `some (.ok rec)` the aggregated record. -/
def aggregateEntry (e : Option RawRepository) : Option (Except Unit GithubRepository) :=
  match e with
  | none => none
  | some r =>
    match r.fullName, r.owner, r.name with
    | some fn, some ow, some nm =>
      match ow.login with
      | some lg =>
        match r.id with
        | some i =>
          some (.ok
            { id := i
              fullName := fn
              owner := lg
              repository := nm
              license := match r.license with
                | some l => l.getKey
                | none => ""
              mostUsedLanguage := r.language
              languages := none })
        | none => none
      | none => some (.error ())
    | _, _, _ => some (.error ())

/-- The whole validation/mapping loop: the first invalid entry aborts
with `INVALID_DATA_FOUND` (no partial list), the first panicking entry
aborts the process (`none`). -/
def buildRecords : List (Option RawRepository) → Option (Except Unit (List GithubRepository))
  | [] => some (.ok [])
  | e :: rest =>
    match aggregateEntry e with
    | none => none
    | some (.error _) => some (.error ())
    | some (.ok rec) =>
      match buildRecords rest with
      | none => none
      | some (.error _) => some (.error ())
      | some (.ok recs) => some (.ok (rec :: recs))

/-- Count of candidate records whose primary-language hint is present —
the `reposWithLanguagesToLoad` counter, which is also the number of
workers launched and hence of outbound language calls. -/
def reposWithLanguagesToLoad (repos : List GithubRepository) : Nat :=
  (repos.filter (fun r => r.mostUsedLanguage.isSome)).length

/-! ## Error handler (`HandleRequestErrors`) -/

/-- Embedding of `HandleRequestErrors`: a GitHub rate-limit error makes
the service try to drain the limiter's full burst via
`AllowN(now, Burst())`; if that drain is refused the function returns
`RATE_LIMITER_ERROR`, otherwise `RATE_LIMIT_REACHED`.  Every other error
maps to `FETCH_ERROR`.  The `Option` in the result mirrors Go's nilable
`error`; every path returns `some`. -/
def handleRequestErrors (s : Limiter) (err : GoError) : Limiter × Option ServiceError :=
  match err with
  | .rateLimitError =>
    let drained := s.allowN s.burst
    if !drained.2 then
      (drained.1, some .rateLimiterError)
    else
      (drained.1, some .rateLimitReached)
  | .otherError => (s, some .fetchError)

/-! ## Enrichment (`GetRepositoriesLanguages`,
`FetchLanguagesForSingleRepository`)

The fetch oracle gives each worker's outcome; worker completion order is
a separate parameter (`arrivals`), constrained at the theorems to be a
permutation of the results actually produced. -/

/-- Embedding of `FetchLanguagesForSingleRepository` given the outcome of
its `ListLanguages` call: on success it writes exactly one result to the
channel and returns `nil`; on failure it writes nothing and returns the
error produced by `HandleRequestErrors`. -/
def fetchLanguagesForSingleRepository (s : Limiter) (r : GithubRepository)
    (outcome : Except GoError Histogram) :
    Limiter × List GithubRepositoryLanguages × Option ServiceError :=
  match outcome with
  | .error e =>
    let handled := handleRequestErrors s e
    (handled.1, [], handled.2)
  | .ok res => (s, [GithubRepositoryLanguages.mk r.id res], none)

/-- What one record contributes to the collection channel: a record
without a primary-language hint contributes an empty-histogram result
directly from the dispatch loop; a hinted record contributes its worker's
single write on success and nothing on failure (the dispatching closure
only logs the worker's error, see `fetchLanguagesForSingleRepository`). -/
def dispatchResult (oracle : GithubRepository → Option Histogram)
    (r : GithubRepository) : Option GithubRepositoryLanguages :=
  match r.mostUsedLanguage with
  | none => some (GithubRepositoryLanguages.mk r.id [])
  | some _ =>
    match oracle r with
    | some h => some (GithubRepositoryLanguages.mk r.id h)
    | none => none

/-- The multiset of results written to the collection channel, in
dispatch order. -/
def producedResults (repos : List GithubRepository)
    (oracle : GithubRepository → Option Histogram) : List GithubRepositoryLanguages :=
  repos.filterMap (dispatchResult oracle)

/-- Draining the channel into `langMap`: a Go map fill where the last
write for a key wins, embedded as a lookup in the reversed arrival
list. -/
def buildLangMap (arrivals : List GithubRepositoryLanguages) (i : Int) : Option Histogram :=
  (arrivals.reverse.find? (fun x => x.repositoryID == i)).map (fun x => x.languages)

/-- The merge loop: each record of the original ordered list gets the
histogram `langMap` holds for its identity, and is left unchanged when
the map has none. -/
def mergeLanguages (repos : List GithubRepository)
    (langMap : Int → Option Histogram) : List GithubRepository :=
  repos.map (fun r =>
    match langMap r.id with
    | some h => { r with languages := some h }
    | none => r)

/-- Embedding of `GetRepositoriesLanguages` given the channel's arrival
order: merge the drained map back onto the input list; the function's Go
`error` result is `nil` on every path. -/
def getRepositoriesLanguages (repos : List GithubRepository)
    (arrivals : List GithubRepositoryLanguages) :
    List GithubRepository × Option ServiceError :=
  (mergeLanguages repos (buildLangMap arrivals), none)

/-! ## Orchestrator (`FetchLastHundredRepositories`) -/

/-- Embedding of `FetchLastHundredRepositories`.  Parameters: the limiter
state, the outcome of the search call, and the channel arrival order of
the enrichment phase (constrained at the theorems to a permutation of
`producedResults` for some fetch oracle).  Result: `none` for a runtime
panic, otherwise the returned `(list, error)` pair, together with the
final limiter state and the number of outbound language calls
performed. -/
def fetchLastHundredRepositories (s : Limiter)
    (searchResult : Except Unit (List (Option RawRepository)))
    (arrivals : List GithubRepositoryLanguages) :
    Option (List GithubRepository × Option ServiceError) × Limiter × Nat :=
  let gate := s.allow
  if !gate.2 then
    (some ([], some .rateLimitReached), gate.1, 0)
  else
    match searchResult with
    | .error _ => (some ([], some .fetchError), gate.1, 0)
    | .ok entries =>
      match buildRecords entries with
      | none => (none, gate.1, 0)
      | some (.error _) => (some ([], some .invalidDataFound), gate.1, 0)
      | some (.ok repos) =>
        let admission := gate.1.allowN (reposWithLanguagesToLoad repos)
        if !admission.2 then
          (some ([], some .rateLimitReached), admission.1, 0)
        else
          let enriched := getRepositoriesLanguages repos arrivals
          match enriched.2 with
          | some _ => (some ([], some .fetchError), admission.1, reposWithLanguagesToLoad repos)
          | none => (some (enriched.1, none), admission.1, reposWithLanguagesToLoad repos)

/-! ## HTTP boundary (`controller/api_controller.go`, `model/errors.go`) -/

/-- Embedding of `model.APIError`. -/
structure APIError where
  code : String
  message : String
deriving Repr, DecidableEq

/-- The generic support message shared by every non-rate-limit reply. -/
def supportMessage : String :=
  "internal server error. contact our support with the reason code for assistance"

/-- Embedding of `model.NewAPIError`.  In the Go switch the cases
`"RATE_LIMITER_ERROR"` and `"INVALID_DATA_FOUND"` have empty bodies (Go
cases do not fall through), so for those two inputs control continues
past the switch to the trailing `return` with code `"GENERIC_ERROR"`;
only `"FETCH_ERROR"` and the `default` case reply with the error's own
text as the code. -/
def newAPIError (errReason : ServiceError) : APIError :=
  match errReason with
  | .rateLimitReached =>
    { code := "RATE_LIMIT_REACHED"
      message := "github rate limit reached. consider using a token to increase the limit or wait few minutes and try again" }
  | .rateLimiterError => { code := "GENERIC_ERROR", message := supportMessage }
  | .invalidDataFound => { code := "GENERIC_ERROR", message := supportMessage }
  | .fetchError => { code := ServiceError.message .fetchError, message := supportMessage }

/-- Embedding of Go `strings.Contains` on the underlying characters. -/
def goContains (s sub : String) : Bool :=
  decide (sub.data <:+: s.data)

/-- Body of the HTTP reply: either the JSON array of records or an
`APIError`. -/
inductive ResponseBody where
  | repos (list : List GithubRepository)
  | apiError (e : APIError)
deriving Repr, DecidableEq

/-- An HTTP status/body pair as produced by the controller. -/
structure HttpResponse where
  status : Nat
  body : ResponseBody
deriving Repr, DecidableEq

/-- Embedding of `GetRepositories` downstream of the orchestrator call:
an error whose text contains `"RATE_LIMIT_REACHED"` is replied with 429,
any other error with 500 (both bodies built by `NewAPIError`), success
with 200 and the record list. -/
def getRepositories (result : List GithubRepository × Option ServiceError) : HttpResponse :=
  match result.2 with
  | some e =>
    if goContains e.message "RATE_LIMIT_REACHED" then
      { status := 429, body := .apiError (newAPIError e) }
    else
      { status := 500, body := .apiError (newAPIError e) }
  | none => { status := 200, body := .repos result.1 }

/-! ## Helper lemmas -/

theorem Limiter.burst_allowN (lim : Limiter) (n : Nat) :
    (lim.allowN n).1.burst = lim.burst := by
  unfold Limiter.allowN
  split <;> rfl

theorem Limiter.runAllowOps_spec (ops : List Nat) (lim : Limiter) (h : 0 ≤ lim.tokens) :
    0 ≤ (lim.runAllowOps ops).1.tokens
      ∧ ((lim.runAllowOps ops).2 : Rat) = lim.tokens - (lim.runAllowOps ops).1.tokens := by
  induction ops generalizing lim with
  | nil => simpa [Limiter.runAllowOps] using h
  | cons n rest ih =>
    by_cases hc : n ≤ lim.burst ∧ (n : Rat) ≤ lim.tokens
    · have hpos : (0 : Rat) ≤ lim.tokens - (n : Rat) := by linarith [hc.2]
      have := ih { lim with tokens := lim.tokens - (n : Rat) } hpos
      simp only [Limiter.runAllowOps, Limiter.allowN, if_pos hc, if_pos rfl] at *
      refine ⟨this.1, ?_⟩
      push_cast
      rw [this.2]
      ring
    · have := ih lim h
      simp only [Limiter.runAllowOps, Limiter.allowN, if_neg hc] at *
      refine ⟨this.1, ?_⟩
      simpa using this.2

/-! ## Claim theorems -/

/-- C8: the rate budget never goes negative: every `AllowN(n)` call
either consumes exactly `n` tokens (when `n` are simultaneously
available and within the burst) or consumes nothing, so the token count
stays non-negative after every sequence of `Allow`/`AllowN` calls, and
for concurrent callers — embedded as an arbitrary sequence of atomic
calls at a fixed capacity — the total number of tokens admitted never
exceeds the capacity. -/
theorem C8_rate_budget_never_negative (lim : Limiter) (n : Nat) (ops : List Nat)
    (hpos : 0 ≤ lim.tokens) (hcap : lim.tokens ≤ (lim.burst : Rat)) :
    ((lim.allowN n).2 = true →
        (lim.allowN n).1.tokens = lim.tokens - (n : Rat) ∧ (n : Rat) ≤ lim.tokens)
      ∧ ((lim.allowN n).2 = false → (lim.allowN n).1 = lim)
      ∧ 0 ≤ (lim.runAllowOps ops).1.tokens
      ∧ ((lim.runAllowOps ops).2 : Rat) ≤ (lim.burst : Rat) := by
  obtain ⟨hrun1, hrun2⟩ := Limiter.runAllowOps_spec ops lim hpos
  refine ⟨?_, ?_, hrun1, ?_⟩
  · intro hok
    unfold Limiter.allowN at hok ⊢
    by_cases hc : n ≤ lim.burst ∧ (n : Rat) ≤ lim.tokens
    · simp [if_pos hc]
      exact hc.2
    · simp [if_neg hc] at hok
  · intro hko
    unfold Limiter.allowN at hko ⊢
    by_cases hc : n ≤ lim.burst ∧ (n : Rat) ≤ lim.tokens
    · simp [if_pos hc] at hko
    · simp [if_neg hc]
  · rw [hrun2]
    linarith

/-- Witness for C8 at a concrete limiter of capacity 2 and the call
sequence `AllowN 1; AllowN 2; AllowN 1` (the middle call is refused). -/
theorem C8_witness :
    ((Limiter.allowN ⟨2, 2⟩ 1).2 = true →
        (Limiter.allowN ⟨2, 2⟩ 1).1.tokens = (2 : Rat) - (1 : Nat) ∧ ((1 : Nat) : Rat) ≤ (2 : Rat))
      ∧ ((Limiter.allowN ⟨2, 2⟩ 1).2 = false → (Limiter.allowN ⟨2, 2⟩ 1).1 = ⟨2, 2⟩)
      ∧ 0 ≤ (Limiter.runAllowOps ⟨2, 2⟩ [1, 2, 1]).1.tokens
      ∧ ((Limiter.runAllowOps ⟨2, 2⟩ [1, 2, 1]).2 : Rat) ≤ ((2 : Nat) : Rat) :=
  C8_rate_budget_never_negative ⟨2, 2⟩ 1 [1, 2, 1] (by norm_num) (by norm_num)

/-- C10: `HandleRequestErrors` totally classifies every error and never
returns nil: on a GitHub rate-limit error it tries to drain the local
limiter's full burst, answering `RATE_LIMIT_REACHED` when the drain is
admitted (which, under the bucket invariant, happens exactly when the
bucket is full) and `RATE_LIMITER_ERROR` when the drain is refused
(exactly when the bucket is not full); every other error maps to
`FETCH_ERROR`. -/
theorem C10_handleRequestErrors_total (s : Limiter) (e : GoError)
    (_hpos : 0 ≤ s.tokens) (hcap : s.tokens ≤ (s.burst : Rat)) :
    (handleRequestErrors s e).2 ≠ none
      ∧ ((handleRequestErrors s .rateLimitError).2 = some .rateLimitReached
          ↔ s.tokens = (s.burst : Rat))
      ∧ ((handleRequestErrors s .rateLimitError).2 = some .rateLimiterError
          ↔ s.tokens < (s.burst : Rat))
      ∧ (handleRequestErrors s .otherError).2 = some .fetchError := by
  have hdrain : (s.allowN s.burst).2 = true ↔ s.tokens = (s.burst : Rat) := by
    unfold Limiter.allowN
    rcases le_or_lt ((s.burst : Nat) : Rat) s.tokens with hle | hlt
    · rw [if_pos ⟨le_refl _, hle⟩]
      simp
      exact le_antisymm hcap hle
    · rw [if_neg (fun hc => absurd hc.2 (not_le.mpr hlt))]
      simp
      exact ne_of_lt hlt
  refine ⟨?_, ?_, ?_, rfl⟩
  · cases e with
    | rateLimitError =>
      unfold handleRequestErrors
      cases hb : (s.allowN s.burst).2 <;> simp [hb]
    | otherError => simp [handleRequestErrors]
  · unfold handleRequestErrors
    cases hb : (s.allowN s.burst).2 with
    | false =>
      simp [hb]
      intro habs
      rw [← hdrain, hb] at habs
      exact Bool.noConfusion habs
    | true =>
      simp [hb]
      exact hdrain.mp hb
  · unfold handleRequestErrors
    cases hb : (s.allowN s.burst).2 with
    | false =>
      simp [hb]
      refine lt_of_le_of_ne hcap fun habs => ?_
      rw [← hdrain, hb] at habs
      exact Bool.noConfusion habs
    | true =>
      simp [hb, hdrain.mp hb]

/-- Witness for C10 at a concrete half-empty limiter. -/
theorem C10_witness :
    (handleRequestErrors ⟨2, 1⟩ .rateLimitError).2 ≠ none
      ∧ ((handleRequestErrors ⟨2, 1⟩ .rateLimitError).2 = some .rateLimitReached
          ↔ (1 : Rat) = ((2 : Nat) : Rat))
      ∧ ((handleRequestErrors ⟨2, 1⟩ .rateLimitError).2 = some .rateLimiterError
          ↔ (1 : Rat) < ((2 : Nat) : Rat))
      ∧ (handleRequestErrors ⟨2, 1⟩ .otherError).2 = some .fetchError :=
  C10_handleRequestErrors_total ⟨2, 1⟩ .rateLimitError (by norm_num) (by norm_num)

/-! ## Concrete inputs used by the boundary / validation claims -/

/-- A raw search entry whose identity pointer is absent while every other
required field is present. -/
def searchEntryMissingID : RawRepository :=
  { id := none
    fullName := some "test/repo1"
    owner := some ⟨some "test-owner"⟩
    name := some "repo1"
    language := some "Go"
    license := none }

/-- A raw search entry with every field present and no license object. -/
def entryLicenseAbsent : RawRepository :=
  { id := some 1
    fullName := some "o/r"
    owner := some ⟨some "o"⟩
    name := some "r"
    language := none
    license := none }

/-- The same entry with a license object present whose key is the empty
string. -/
def entryLicenseEmptyKey : RawRepository :=
  { entryLicenseAbsent with license := some ⟨some ""⟩ }

/-- The record both license entries aggregate to. -/
def recordLicenseEmpty : GithubRepository :=
  { id := 1
    fullName := "o/r"
    owner := "o"
    repository := "r"
    license := ""
    mostUsedLanguage := none
    languages := none }

/-- C9 (code bug): the controller maps a non-rate-limit failure to
HTTP 500 with the `NewAPIError` body, but for `INVALID_DATA_FOUND` (and
`RATE_LIMITER_ERROR`) the Go switch cases are empty bodies, so the body's
code is the fallback `GENERIC_ERROR` instead of the failure's own reason
code. -/
theorem C9_boundary_generic_code :
    getRepositories ([], some .invalidDataFound)
        = { status := 500, body := .apiError { code := "GENERIC_ERROR", message := supportMessage } }
      ∧ getRepositories ([], some .rateLimitReached)
        = { status := 429, body := .apiError (newAPIError .rateLimitReached) }
      ∧ getRepositories ([], some .fetchError)
        = { status := 500, body := .apiError { code := "FETCH_ERROR", message := supportMessage } }
      ∧ getRepositories ([recordLicenseEmpty], none)
        = { status := 200, body := .repos [recordLicenseEmpty] } :=
  ⟨rfl, rfl, rfl, rfl⟩

/-- C5 (code bug): a raw entry whose identity is missing but whose other
required fields are present passes the validation guard (which never
checks `r.ID`) and the subsequent `*r.ID` dereference panics (`none`),
instead of the operation returning `INVALID_DATA_FOUND` with an empty
list. -/
theorem C5_missing_identity_panics :
    (fetchLastHundredRepositories ⟨60, 60⟩ (.ok [some searchEntryMissingID]) []).1 = none
      ∧ (fetchLastHundredRepositories ⟨60, 60⟩ (.ok [some searchEntryMissingID]) []).1
          ≠ some ([], some .invalidDataFound) := by
  constructor
  · rfl
  · intro h
    rw [show (fetchLastHundredRepositories ⟨60, 60⟩ (.ok [some searchEntryMissingID]) []).1
          = none from rfl] at h
    exact Option.noConfusion h

/-- C6 counterexample: a raw entry with no license object and a raw entry
whose license object carries the empty key aggregate to the very same
record (an absent license is not distinguishable from a present-but-empty
one), and the serialized key set always contains `license` (the field is
not omitted when the license is absent). -/
theorem C6_counterexample :
    aggregateEntry (some entryLicenseAbsent) = some (.ok recordLicenseEmpty)
      ∧ aggregateEntry (some entryLicenseEmptyKey) = some (.ok recordLicenseEmpty)
      ∧ "license" ∈ marshalKeys recordLicenseEmpty :=
  ⟨rfl, rfl, by simp [marshalKeys]⟩

/-- C6 as amended: a present license object is mapped through `GetKey`
to its short identifier (empty when the key pointer is nil) and an absent
license object leaves the record's license field as the empty string —
the two states are not distinguishable — and the serialized record always
carries the `license` key. -/
theorem C6_license_mapping (r : RawRepository) (rec : GithubRepository)
    (h : aggregateEntry (some r) = some (.ok rec)) :
    (∀ l, r.license = some l → rec.license = l.getKey)
      ∧ (r.license = none → rec.license = "")
      ∧ "license" ∈ marshalKeys rec := by
  obtain ⟨id, fn, ow, nm, lang, lic⟩ := r
  cases fn with
  | none => simp [aggregateEntry] at h
  | some fn =>
    cases ow with
    | none => simp [aggregateEntry] at h
    | some ow =>
      cases nm with
      | none => simp [aggregateEntry] at h
      | some nm =>
        obtain ⟨login⟩ := ow
        cases login with
        | none => simp [aggregateEntry] at h
        | some login =>
          cases id with
          | none => simp [aggregateEntry] at h
          | some id =>
            simp only [aggregateEntry, Option.some.injEq, Except.ok.injEq] at h
            subst h
            refine ⟨?_, ?_, ?_⟩
            · intro l hl
              subst hl
              rfl
            · intro hl
              subst hl
              rfl
            · simp [marshalKeys]

/-- Witness for the amended C6 at the concrete absent-license entry. -/
theorem C6_witness :
    (∀ l, entryLicenseAbsent.license = some l → recordLicenseEmpty.license = l.getKey)
      ∧ (entryLicenseAbsent.license = none → recordLicenseEmpty.license = "")
      ∧ "license" ∈ marshalKeys recordLicenseEmpty :=
  C6_license_mapping entryLicenseAbsent recordLicenseEmpty rfl

/-! ## C1: all-or-nothing admission control -/

/-- A valid hinted raw entry used by the C1 scenario. -/
def scenarioEntry1 : RawRepository :=
  { id := some 1
    fullName := some "test/repo1"
    owner := some ⟨some "test-owner"⟩
    name := some "repo1"
    language := some "Go"
    license := none }

/-- A second valid hinted raw entry used by the C1 scenario. -/
def scenarioEntry2 : RawRepository :=
  { id := some 2
    fullName := some "Owner2/repo2"
    owner := some ⟨some "Owner2"⟩
    name := some "repo2"
    language := some "Java"
    license := none }

/-- C1: admission control is all-or-nothing.  `FetchLastHundredRepositories`
requests one token before the search; a refusal returns
`RATE_LIMIT_REACHED` with an empty list and zero language calls.  After
validation it counts the records with a primary-language hint and
requests exactly that many tokens in one atomic `AllowN`; a refusal again
returns `RATE_LIMIT_REACHED` with an empty list and zero language
calls — no language fetch is performed. -/
theorem C1_all_or_nothing_admission (s : Limiter)
    (searchResult : Except Unit (List (Option RawRepository)))
    (arrivals : List GithubRepositoryLanguages) :
    ((s.allow.2 = false →
        fetchLastHundredRepositories s searchResult arrivals
          = (some ([], some .rateLimitReached), s.allow.1, 0)))
      ∧ ∀ entries repos, s.allow.2 = true → searchResult = .ok entries →
          buildRecords entries = some (.ok repos) →
          (s.allow.1.allowN (reposWithLanguagesToLoad repos)).2 = false →
          fetchLastHundredRepositories s searchResult arrivals
            = (some ([], some .rateLimitReached),
               (s.allow.1.allowN (reposWithLanguagesToLoad repos)).1, 0) := by
  constructor
  · intro hgate
    unfold fetchLastHundredRepositories
    simp [hgate]
  · intro entries repos hgate hsearch hbuild hadm
    subst hsearch
    unfold fetchLastHundredRepositories
    simp [hgate, hbuild, hadm]

/-- Witness for C1: with an empty budget the search gate itself refuses;
with capacity 1 and a search returning two repositories that both need a
language call, `Allow` succeeds, `AllowN 2` is refused, and the operation
fails with `RATE_LIMIT_REACHED`, an empty list and zero language calls
before any language fetch. -/
theorem C1_witness :
    fetchLastHundredRepositories ⟨1, 0⟩ (.ok [some scenarioEntry1]) []
        = (some ([], some .rateLimitReached), (Limiter.allow ⟨1, 0⟩).1, 0)
      ∧ fetchLastHundredRepositories ⟨1, 1⟩ (.ok [some scenarioEntry1, some scenarioEntry2]) []
        = (some ([], some .rateLimitReached),
           ((Limiter.allow ⟨1, 1⟩).1.allowN 2).1, 0) :=
  ⟨(C1_all_or_nothing_admission ⟨1, 0⟩ (.ok [some scenarioEntry1]) []).1 (by decide),
   (C1_all_or_nothing_admission ⟨1, 1⟩ (.ok [some scenarioEntry1, some scenarioEntry2]) []).2
     [some scenarioEntry1, some scenarioEntry2] _ (by decide) rfl rfl (by decide)⟩

/-! ## Enrichment lemmas -/

theorem mem_of_getElem?_eq_some {α : Type} {l : List α} {i : Nat} {a : α}
    (h : l[i]? = some a) : a ∈ l := by
  obtain ⟨hlt, hg⟩ := List.getElem?_eq_some.mp h
  exact hg ▸ List.getElem_mem hlt

theorem mem_producedResults_elim {repos : List GithubRepository}
    {oracle : GithubRepository → Option Histogram} {x : GithubRepositoryLanguages}
    (hx : x ∈ producedResults repos oracle) :
    ∃ r ∈ repos, x.repositoryID = r.id ∧
      ((r.mostUsedLanguage = none ∧ x.languages = [])
        ∨ (r.mostUsedLanguage ≠ none ∧ oracle r = some x.languages)) := by
  rw [producedResults, List.mem_filterMap] at hx
  obtain ⟨r, hr, heq⟩ := hx
  refine ⟨r, hr, ?_⟩
  unfold dispatchResult at heq
  cases hml : r.mostUsedLanguage with
  | none =>
    rw [hml] at heq
    injection heq with heq
    subst heq
    simp [hml]
  | some l =>
    rw [hml] at heq
    cases ho : oracle r with
    | none =>
      rw [ho] at heq
      exact Option.noConfusion heq
    | some h =>
      rw [ho] at heq
      injection heq with heq
      subst heq
      simp [hml, ho]

theorem hintless_mem_producedResults {repos : List GithubRepository}
    {oracle : GithubRepository → Option Histogram} {r : GithubRepository}
    (hr : r ∈ repos) (hh : r.mostUsedLanguage = none) :
    (GithubRepositoryLanguages.mk r.id []) ∈ producedResults repos oracle := by
  rw [producedResults, List.mem_filterMap]
  exact ⟨r, hr, by simp [dispatchResult, hh]⟩

theorem buildLangMap_eq_some {arrivals : List GithubRepositoryLanguages} {i : Int}
    {h : Histogram}
    (hex : ∃ x ∈ arrivals, x.repositoryID = i)
    (hall : ∀ x ∈ arrivals, x.repositoryID = i → x.languages = h) :
    buildLangMap arrivals i = some h := by
  unfold buildLangMap
  cases hf : arrivals.reverse.find? (fun x => x.repositoryID == i) with
  | none =>
    rw [List.find?_eq_none] at hf
    obtain ⟨x, hx, hxi⟩ := hex
    exact absurd (by simp [hxi]) (hf x (List.mem_reverse.mpr hx))
  | some x =>
    have hmem := List.mem_reverse.mp (List.mem_of_find?_eq_some hf)
    have hpx : x.repositoryID = i := by simpa using List.find?_some hf
    simp [hall x hmem hpx]

theorem buildLangMap_eq_none {arrivals : List GithubRepositoryLanguages} {i : Int}
    (hnone : ∀ x ∈ arrivals, x.repositoryID ≠ i) :
    buildLangMap arrivals i = none := by
  unfold buildLangMap
  rw [List.find?_eq_none.mpr]
  · rfl
  · intro x hx
    simp
    exact hnone x (List.mem_reverse.mp hx)

/-! ## C2: ordering invariant of the merge -/

/-- C2: for every input list of validated records with distinct
identities and every order in which worker results arrive on the
collection channel, `GetRepositoriesLanguages` returns a list of the same
length whose `i`-th record carries the same identity as the `i`-th input
record — the merge is keyed by identity against the original ordered
list. -/
theorem C2_ordering_invariant (repos : List GithubRepository)
    (oracle : GithubRepository → Option Histogram)
    (arrivals : List GithubRepositoryLanguages)
    (_hperm : arrivals.Perm (producedResults repos oracle))
    (_hnodup : (repos.map (fun r => r.id)).Nodup) :
    (getRepositoriesLanguages repos arrivals).1.length = repos.length
      ∧ ∀ i : Nat,
        ((getRepositoriesLanguages repos arrivals).1[i]?).map (fun r => r.id)
          = (repos[i]?).map (fun r => r.id) := by
  constructor
  · simp [getRepositoriesLanguages, mergeLanguages]
  · intro i
    simp only [getRepositoriesLanguages, mergeLanguages, List.getElem?_map]
    cases repos[i]? with
    | none => rfl
    | some r =>
      cases hm : buildLangMap arrivals r.id <;> simp [hm]

/-- Records and channel values used by the enrichment witnesses. -/
def wRecGo : GithubRepository :=
  { id := 1
    fullName := "test/repo1"
    owner := "test-owner"
    repository := "repo1"
    license := ""
    mostUsedLanguage := some "Go"
    languages := none }

/-- A validated record without a primary-language hint. -/
def wRecNoHint : GithubRepository :=
  { id := 2
    fullName := "Owner2/repo2"
    owner := "Owner2"
    repository := "repo2"
    license := ""
    mostUsedLanguage := none
    languages := none }

/-- An oracle whose language fetches all succeed with `{"Go": 10}`. -/
def wOracleGo : GithubRepository → Option Histogram :=
  fun _ => some [("Go", 10)]

/-- An oracle whose language fetches all fail. -/
def wOracleFail : GithubRepository → Option Histogram :=
  fun _ => none

/-- Witness for C2: two records arriving in the inverse of dispatch
order still come back in input order. -/
theorem C2_witness :
    (getRepositoriesLanguages [wRecGo, wRecNoHint]
        [⟨2, []⟩, ⟨1, [("Go", 10)]⟩]).1.length = 2
      ∧ ∀ i : Nat,
        ((getRepositoriesLanguages [wRecGo, wRecNoHint]
            [⟨2, []⟩, ⟨1, [("Go", 10)]⟩]).1[i]?).map (fun r => r.id)
          = (([wRecGo, wRecNoHint] : List GithubRepository)[i]?).map (fun r => r.id) :=
  C2_ordering_invariant [wRecGo, wRecNoHint] wOracleGo [⟨2, []⟩, ⟨1, [("Go", 10)]⟩]
    (by decide) (by decide)

/-! ## C3: hint-less records short-circuit -/

/-- C3: a record without a primary-language hint contributes an
empty-histogram result straight from the dispatch loop — only hinted
records launch workers (and hence outbound calls or token use) — and,
with distinct identities, such a record's languages field in the output
is the empty histogram; a list where every record lacks a hint comes back
unchanged except for empty histograms, with zero outbound calls. -/
theorem C3_hintless_short_circuit (repos : List GithubRepository)
    (oracle : GithubRepository → Option Histogram)
    (arrivals : List GithubRepositoryLanguages)
    (hperm : arrivals.Perm (producedResults repos oracle)) :
    (∀ r ∈ repos, r.mostUsedLanguage = none →
        (GithubRepositoryLanguages.mk r.id []) ∈ producedResults repos oracle)
      ∧ reposWithLanguagesToLoad repos
          = reposWithLanguagesToLoad (repos.filter (fun r => r.mostUsedLanguage.isSome))
      ∧ ((repos.map (fun r => r.id)).Nodup →
          ∀ (i : Nat) (r : GithubRepository), repos[i]? = some r →
            r.mostUsedLanguage = none →
            ((getRepositoriesLanguages repos arrivals).1[i]?).map (fun x => x.languages)
              = some (some ([] : Histogram)))
      ∧ ((∀ r ∈ repos, r.mostUsedLanguage = none) →
          (getRepositoriesLanguages repos arrivals).1
              = repos.map (fun r => { r with languages := some ([] : Histogram) })
            ∧ reposWithLanguagesToLoad repos = 0) := by
  refine ⟨fun r hr hh => hintless_mem_producedResults hr hh, ?_, ?_, ?_⟩
  · simp [reposWithLanguagesToLoad, List.filter_filter]
  · intro hnodup i r hi hh
    have hr : r ∈ repos := mem_of_getElem?_eq_some hi
    have hall : ∀ x ∈ arrivals, x.repositoryID = r.id → x.languages = [] := by
      intro x hx hxi
      obtain ⟨r', hr', hid, hcases⟩ := mem_producedResults_elim (hperm.mem_iff.mp hx)
      have heq : r' = r :=
        List.inj_on_of_nodup_map hnodup hr' hr (by rw [← hid, hxi])
      subst heq
      rcases hcases with ⟨_, hl⟩ | ⟨hne, _⟩
      · exact hl
      · exact absurd hh hne
    have hex : ∃ x ∈ arrivals, x.repositoryID = r.id :=
      ⟨⟨r.id, []⟩, hperm.mem_iff.mpr (hintless_mem_producedResults hr hh), rfl⟩
    have hmap := buildLangMap_eq_some hex hall
    simp [getRepositoriesLanguages, mergeLanguages, List.getElem?_map, hi, hmap]
  · intro hall2
    have harr : ∀ x ∈ arrivals, x.languages = [] := by
      intro x hx
      obtain ⟨r', hr', _, hcases⟩ := mem_producedResults_elim (hperm.mem_iff.mp hx)
      rcases hcases with ⟨_, hl⟩ | ⟨hne, _⟩
      · exact hl
      · exact absurd (hall2 r' hr') hne
    constructor
    · simp only [getRepositoriesLanguages, mergeLanguages]
      refine List.map_congr_left fun r hr => ?_
      have hmap : buildLangMap arrivals r.id = some [] :=
        buildLangMap_eq_some
          ⟨⟨r.id, []⟩, hperm.mem_iff.mpr (hintless_mem_producedResults hr (hall2 r hr)), rfl⟩
          (fun x hx _ => harr x hx)
      simp [hmap]
    · simp only [reposWithLanguagesToLoad, List.length_eq_zero, List.filter_eq_nil_iff]
      intro r hr
      simp [hall2 r hr]

/-- Witness for C3: a hint-less record in a mixed list gets the empty
histogram at its own index, and an all-hint-less list comes back with
empty histograms and a zero worker count. -/
theorem C3_witness :
    ((getRepositoriesLanguages [wRecGo, wRecNoHint]
        [⟨2, []⟩, ⟨1, [("Go", 10)]⟩]).1[1]?).map (fun x => x.languages)
        = some (some ([] : Histogram))
      ∧ (getRepositoriesLanguages [wRecNoHint] [⟨2, []⟩]).1
          = List.map (fun r => { r with languages := some ([] : Histogram) }) [wRecNoHint]
      ∧ reposWithLanguagesToLoad [wRecNoHint] = 0 :=
  ⟨(C3_hintless_short_circuit [wRecGo, wRecNoHint] wOracleGo
      [⟨2, []⟩, ⟨1, [("Go", 10)]⟩] (by decide)).2.2.1 (by decide) 1 wRecNoHint rfl rfl,
   ((C3_hintless_short_circuit [wRecNoHint] wOracleGo [⟨2, []⟩] (by decide)).2.2.2
      (by decide)).1,
   ((C3_hintless_short_circuit [wRecNoHint] wOracleGo [⟨2, []⟩] (by decide)).2.2.2
      (by decide)).2⟩

/-! ## C4: per-worker failure is absorbed -/

/-- C4: a worker whose language fetch fails writes nothing to the
collection channel and hands its (logged-only) error back to the
dispatching closure; `GetRepositoriesLanguages` nevertheless returns a
nil error, and the failing repository's record keeps its (empty, nil-map)
language histogram in the returned list. -/
theorem C4_worker_failure_absorbed (s : Limiter) (r0 : GithubRepository) (e : GoError)
    (repos : List GithubRepository)
    (oracle : GithubRepository → Option Histogram)
    (arrivals : List GithubRepositoryLanguages)
    (hperm : arrivals.Perm (producedResults repos oracle)) :
    (fetchLanguagesForSingleRepository s r0 (.error e)).2.1 = []
      ∧ (fetchLanguagesForSingleRepository s r0 (.error e)).2.2 ≠ none
      ∧ (getRepositoriesLanguages repos arrivals).2 = none
      ∧ ((repos.map (fun r => r.id)).Nodup →
          ∀ (i : Nat) (r : GithubRepository), repos[i]? = some r →
            r.mostUsedLanguage ≠ none → oracle r = none →
            ((getRepositoriesLanguages repos arrivals).1[i]?).map (fun x => x.languages)
              = some r.languages) := by
  refine ⟨rfl, ?_, rfl, ?_⟩
  · cases e with
    | rateLimitError =>
      cases hb : (s.allowN s.burst).2 <;>
        simp [fetchLanguagesForSingleRepository, handleRequestErrors, hb]
    | otherError =>
      simp [fetchLanguagesForSingleRepository, handleRequestErrors]
  · intro hnodup i r hi hne ho
    have hr : r ∈ repos := mem_of_getElem?_eq_some hi
    have hnone : ∀ x ∈ arrivals, x.repositoryID ≠ r.id := by
      intro x hx hxi
      obtain ⟨r', hr', hid, hcases⟩ := mem_producedResults_elim (hperm.mem_iff.mp hx)
      have heq : r' = r :=
        List.inj_on_of_nodup_map hnodup hr' hr (by rw [← hid, hxi])
      subst heq
      rcases hcases with ⟨hh, _⟩ | ⟨_, hsome⟩
      · exact hne hh
      · rw [ho] at hsome
        exact Option.noConfusion hsome
    have hmap := buildLangMap_eq_none hnone
    simp [getRepositoriesLanguages, mergeLanguages, List.getElem?_map, hi, hmap]

/-- Witness for C4: with a failing oracle, the worker for the hinted
record writes nothing, the batch still succeeds, and that record keeps
its nil-map histogram. -/
theorem C4_witness :
    (fetchLanguagesForSingleRepository ⟨1, 1⟩ wRecGo (.error .otherError)).2.1 = []
      ∧ (fetchLanguagesForSingleRepository ⟨1, 1⟩ wRecGo (.error .otherError)).2.2 ≠ none
      ∧ (getRepositoriesLanguages [wRecGo, wRecNoHint] [⟨2, []⟩]).2 = none
      ∧ ((getRepositoriesLanguages [wRecGo, wRecNoHint] [⟨2, []⟩]).1[0]?).map
          (fun x => x.languages) = some wRecGo.languages :=
  have h := C4_worker_failure_absorbed ⟨1, 1⟩ wRecGo .otherError
    [wRecGo, wRecNoHint] wOracleFail [⟨2, []⟩] (by decide)
  ⟨h.1, h.2.1, h.2.2.1,
   h.2.2.2 (by decide) 0 wRecGo rfl (by decide) rfl⟩

/-! ## C7: shape of the generated search query -/

/-- Space-terminated join of a term list, the way the Go string builder
writes one fragment per filter. -/
def joinTerms : List String → String
  | [] => ""
  | t :: rest => t ++ " " ++ joinTerms rest

theorem head?_dropWhile_not {α : Type} (p : α → Bool) :
    ∀ (l : List α) {c : α}, (l.dropWhile p).head? = some c → p c = false := by
  intro l
  induction l with
  | nil =>
    intro c h
    simp [List.dropWhile] at h
  | cons a t ih =>
    intro c h
    rw [List.dropWhile_cons] at h
    by_cases hp : p a
    · rw [if_pos hp] at h
      exact ih h
    · rw [if_neg hp] at h
      injection h with h
      subst h
      simpa using hp

theorem hasTrailingSpace_goTrimSpace (s : String) :
    hasTrailingSpace (goTrimSpace s) = false := by
  unfold hasTrailingSpace goTrimSpace
  rw [show (String.mk (((s.data.dropWhile isGoSpace).reverse.dropWhile
        isGoSpace).reverse)).data
      = ((s.data.dropWhile isGoSpace).reverse.dropWhile isGoSpace).reverse from rfl]
  rw [List.getLast?_reverse]
  cases hh : ((s.data.dropWhile isGoSpace).reverse.dropWhile isGoSpace).head? with
  | none => simp [hh]
  | some c =>
    simp only [hh]
    exact head?_dropWhile_not isGoSpace _ hh

theorem owner_head (o : String) : ("owner:" ++ o).data.head? = some 'o' := by
  rw [String.data_append]; rfl

theorem license_head (l : String) : ("license:" ++ l).data.head? = some 'l' := by
  rw [String.data_append]; rfl

theorem language_head (g : String) : ("language:" ++ g).data.head? = some 'l' := by
  rw [String.data_append]; rfl

theorem license_second (l : String) : ("license:" ++ l).data.tail.head? = some 'i' := by
  rw [String.data_append]; rfl

theorem language_second (g : String) : ("language:" ++ g).data.tail.head? = some 'a' := by
  rw [String.data_append]; rfl

theorem ne_of_head_char {a b : String} {ca cb : Char}
    (ha : a.data.head? = some ca) (hb : b.data.head? = some cb) (hne : ca ≠ cb) :
    a ≠ b := by
  intro h
  rw [h, hb] at ha
  exact hne (Option.some.inj ha).symm

theorem ne_of_second_char {a b : String} {ca cb : Char}
    (ha : a.data.tail.head? = some ca) (hb : b.data.tail.head? = some cb) (hne : ca ≠ cb) :
    a ≠ b := by
  intro h
  rw [h, hb] at ha
  exact hne (Option.some.inj ha).symm

theorem owner_ne_is_public : ("owner:" : String) ≠ "is:public" := by decide

theorem license_ne_is_public : ("license:" : String) ≠ "is:public" := by decide

theorem language_ne_is_public : ("language:" : String) ≠ "is:public" := by decide

theorem owner_ne_license (l : String) : ("owner:" : String) ≠ "license:" ++ l :=
  ne_of_head_char rfl (license_head l) (by decide)

theorem owner_ne_language (g : String) : ("owner:" : String) ≠ "language:" ++ g :=
  ne_of_head_char rfl (language_head g) (by decide)

theorem license_ne_owner (o : String) : ("license:" : String) ≠ "owner:" ++ o :=
  ne_of_head_char rfl (owner_head o) (by decide)

theorem license_ne_language (g : String) : ("license:" : String) ≠ "language:" ++ g :=
  ne_of_second_char rfl (language_second g) (by decide)

theorem language_ne_owner (o : String) : ("language:" : String) ≠ "owner:" ++ o :=
  ne_of_head_char rfl (owner_head o) (by decide)

theorem language_ne_license (l : String) : ("language:" : String) ≠ "license:" ++ l :=
  ne_of_second_char rfl (license_second l) (by decide)

/-- C7: for every `SearchQuery`, the string `ToGithubQuery` builds (as
called, with public filtering on) is the trimmed space-joined list of
`specQueryTerms`; that list always includes `is:public`; the query has no
trailing whitespace; and each of the `owner:`, `license:`, `language:`
filter terms is in the list exactly when the corresponding field is
non-empty. -/
theorem C7_toGithubQuery_shape (params : SearchQuery) :
    params.toGithubQuery true = goTrimSpace (joinTerms (specQueryTerms params))
      ∧ "is:public" ∈ specQueryTerms params
      ∧ hasTrailingSpace (params.toGithubQuery true) = false
      ∧ (("owner:" ++ params.owner) ∈ specQueryTerms params ↔ params.owner ≠ "")
      ∧ (("license:" ++ params.license) ∈ specQueryTerms params ↔ params.license ≠ "")
      ∧ (("language:" ++ params.language) ∈ specQueryTerms params
          ↔ params.language ≠ "") := by
  have hsplit : ("is:public " : String).data
      = ("is:public" : String).data ++ (" " : String).data := rfl
  have hnil : ("" : String).data = ([] : List Char) := rfl
  refine ⟨?_, ?_, hasTrailingSpace_goTrimSpace _, ?_, ?_, ?_⟩
  · unfold SearchQuery.toGithubQuery specQueryTerms
    congr 1
    by_cases ho : params.owner = "" <;> by_cases hl : params.license = "" <;>
      by_cases hg : params.language = "" <;>
      · apply String.ext
        simp [ho, hl, hg, joinTerms, String.data_append, hsplit, hnil]
  · simp [specQueryTerms]
  · by_cases ho : params.owner = ""
    · by_cases hl : params.license = "" <;> by_cases hg : params.language = "" <;>
        simp [specQueryTerms, ho, hl, hg, String.append_empty, owner_ne_is_public,
          owner_ne_license, owner_ne_language]
    · simp [specQueryTerms, ho]
  · by_cases hl : params.license = ""
    · by_cases ho : params.owner = "" <;> by_cases hg : params.language = "" <;>
        simp [specQueryTerms, hl, ho, hg, String.append_empty, license_ne_is_public,
          license_ne_owner, license_ne_language]
    · simp [specQueryTerms, hl]
  · by_cases hg : params.language = ""
    · by_cases ho : params.owner = "" <;> by_cases hl : params.license = "" <;>
        simp [specQueryTerms, hg, ho, hl, String.append_empty, language_ne_is_public,
          language_ne_owner, language_ne_license]
    · simp [specQueryTerms, hg]

end Sclng
